import Mathlib

/-!
# Verification of the NBA_Predict ingestion core

Shallow embedding of the incremental-ingestion core of the NBA_Predict
repository (`NBA_ETL_Safe.py`, the S3 variant, and `NBA_ETL.py`, the
relational variant), together with proofs settling the specification
claims about retries, idempotent partitioned writes, game pairing,
box-score merges, minutes parsing and error isolation.

Machine conventions: Python floats are modelled as rationals (`ℚ`),
Python strings as `List Char` where character-level reasoning is needed
and as `String` otherwise, exceptions as explicit outcome values
(`Except`, dedicated inductives), and the S3 store / database as
explicit state records.
-/

set_option autoImplicit false

namespace NBAETLSafe

/-! ## Retry executor: `nba_call_with_retry` (NBA_ETL_Safe.py lines 49-60)

The wrapped zero-argument call `fn` is modelled as a function from the
attempt number (1-based, as in `for attempt in range(1, retries + 1)`)
to the outcome of that invocation.  `random.uniform(0.5, 1.5)` is
modelled by an oracle `jitter : Nat → ℚ` giving the value drawn before
each retry.  The embedding returns the final outcome, the number of
invocations of `fn` performed, and the list of delays slept (in order).
-/

/-- Outcome of one invocation of the wrapped call: a value, a
`requests.exceptions.ReadTimeout`, or any other exception (carried as a
numeric error code). -/
inductive CallResult (α : Type) where
  | success (v : α)
  | readTimeout
  | fatal (e : Nat)
deriving DecidableEq, Repr

/-- Result of `nba_call_with_retry`: a returned value, a re-raised
`ReadTimeout` from the final attempt, a propagated non-timeout
exception, or the implicit `None` returned when the loop body never
runs (`retries = 0`). -/
inductive RetryResult (α : Type) where
  | ok (v : α)
  | raisedTimeout
  | raisedFatal (e : Nat)
  | noneReturned
deriving DecidableEq, Repr

/-- The loop body of `nba_call_with_retry`, from a given `attempt`
number.  `fuel` is the number of loop iterations still available
(`retries - attempt + 1` at every call site), making the recursion
structural.  Mirrors NBA_ETL_Safe.py lines 50-60: `try: return fn()`,
`except ReadTimeout:` re-raise when `attempt == retries`, otherwise
sleep `base_delay * attempt + random.uniform(0.5, 1.5)` and continue;
any other exception propagates out of the loop at once. -/
def retryGo {α : Type} (fn : Nat → CallResult α) (jitter : Nat → ℚ)
    (retries : Nat) (baseDelay : ℚ) :
    Nat → Nat → RetryResult α × Nat × List ℚ
  | 0, _ => (.noneReturned, 0, [])
  | fuel + 1, attempt =>
    match fn attempt with
    | .success v => (.ok v, 1, [])
    | .fatal e => (.raisedFatal e, 1, [])
    | .readTimeout =>
      if attempt = retries then
        (.raisedTimeout, 1, [])
      else
        let rest := retryGo fn jitter retries baseDelay fuel (attempt + 1)
        (rest.1, rest.2.1 + 1, (baseDelay * (attempt : ℚ) + jitter attempt) :: rest.2.2)

/-- `nba_call_with_retry(fn, retries, base_delay)` (NBA_ETL_Safe.py
line 49): run the loop from attempt 1 with `retries` iterations
available. -/
def nba_call_with_retry {α : Type} (fn : Nat → CallResult α) (jitter : Nat → ℚ)
    (retries : Nat) (baseDelay : ℚ) : RetryResult α × Nat × List ℚ :=
  retryGo fn jitter retries baseDelay retries 1

/-- The delay slept after a failed attempt `i`:
`base_delay * attempt + random.uniform(0.5, 1.5)` (line 56). -/
def sleepFor (jitter : Nat → ℚ) (baseDelay : ℚ) (i : Nat) : ℚ :=
  baseDelay * (i : ℚ) + jitter i

/-- Unfolding of one loop iteration when fuel remains. -/
lemma retryGo_succ {α : Type} (fn : Nat → CallResult α) (jitter : Nat → ℚ)
    (retries : Nat) (baseDelay : ℚ) (fuel attempt : Nat) :
    retryGo fn jitter retries baseDelay (fuel + 1) attempt =
      match fn attempt with
      | .success v => (.ok v, 1, [])
      | .fatal e => (.raisedFatal e, 1, [])
      | .readTimeout =>
        if attempt = retries then
          (.raisedTimeout, 1, [])
        else
          let rest := retryGo fn jitter retries baseDelay fuel (attempt + 1)
          (rest.1, rest.2.1 + 1,
            (baseDelay * (attempt : ℚ) + jitter attempt) :: rest.2.2) := rfl

/-- If the `n` attempts `a, a+1, ..., a+n-1` all time out and
`a + n ≤ retries`, the loop from attempt `a` performs those `n`
timed-out invocations, sleeping after each, and then continues from
attempt `a + n`. -/
lemma retryGo_timeout_prefix {α : Type} (fn : Nat → CallResult α)
    (jitter : Nat → ℚ) (retries : Nat) (baseDelay : ℚ) :
    ∀ (n a : Nat), a + n ≤ retries → 1 ≤ a →
    (∀ i, a ≤ i → i < a + n → fn i = .readTimeout) →
    retryGo fn jitter retries baseDelay (retries - a + 1) a =
      ((retryGo fn jitter retries baseDelay (retries - (a + n) + 1) (a + n)).1,
       (retryGo fn jitter retries baseDelay (retries - (a + n) + 1) (a + n)).2.1 + n,
       (List.range' a n).map (sleepFor jitter baseDelay) ++
         (retryGo fn jitter retries baseDelay (retries - (a + n) + 1) (a + n)).2.2) := by
  intro n
  induction n with
  | zero => intro a _ _ _; simp
  | succ n ih =>
    intro a hle ha hto
    have hfa : fn a = .readTimeout := hto a le_rfl (by omega)
    rw [retryGo_succ, hfa]
    have hne : ¬ (a = retries) := by omega
    simp only [if_neg hne]
    have hrec : retries - a = retries - (a + 1) + 1 := by omega
    rw [hrec]
    have ih' := ih (a + 1) (by omega) (by omega)
      (fun i hi1 hi2 => hto i (by omega) (by omega))
    rw [ih']
    have hpt : a + 1 + n = a + (n + 1) := by omega
    rw [hpt] at *
    refine Prod.ext rfl (Prod.ext ?_ ?_)
    · show _ + n + 1 = _ + (n + 1)
      omega
    · show sleepFor jitter baseDelay a ::
        ((List.range' (a + 1) n).map (sleepFor jitter baseDelay) ++ _) = _
      rw [List.range'_succ, List.map_cons, List.cons_append]

/-- C2: if the wrapped call times out on attempts `1..k` with
`k < retries` and succeeds on attempt `k + 1`, `nba_call_with_retry`
returns the success value after exactly `k + 1` invocations, and the
delays slept are `base_delay * i + jitter i` for `i = 1..k` (so the
delay before attempt `k + 1` is `base_delay * k + jitter` with the
jitter drawn from `[0.5, 1.5)`); if every attempt times out, it
performs exactly `retries` invocations and re-raises the timeout. -/
theorem retry_bound_and_backoff {α : Type} (fn : Nat → CallResult α)
    (jitter : Nat → ℚ) (retries : Nat) (baseDelay : ℚ)
    (hr : 1 ≤ retries) (hj : ∀ i, (1 : ℚ)/2 ≤ jitter i ∧ jitter i < 3/2) :
    (∀ (k : Nat) (v : α), k < retries →
      (∀ i, 1 ≤ i → i ≤ k → fn i = .readTimeout) →
      fn (k + 1) = .success v →
      nba_call_with_retry fn jitter retries baseDelay =
        (.ok v, k + 1, (List.range' 1 k).map (sleepFor jitter baseDelay))
      ∧ (1 ≤ k → ∃ j, (1 : ℚ)/2 ≤ j ∧ j < 3/2 ∧
          ((List.range' 1 k).map (sleepFor jitter baseDelay)).getLast? =
            some (baseDelay * (k : ℚ) + j)))
    ∧ ((∀ i, 1 ≤ i → i ≤ retries → fn i = .readTimeout) →
      nba_call_with_retry fn jitter retries baseDelay =
        (.raisedTimeout, retries,
          (List.range' 1 (retries - 1)).map (sleepFor jitter baseDelay))) := by
  have hcall : nba_call_with_retry fn jitter retries baseDelay =
      retryGo fn jitter retries baseDelay (retries - 1 + 1) 1 := by
    unfold nba_call_with_retry
    rw [show retries - 1 + 1 = retries from by omega]
  constructor
  · intro k v hk hto hsucc
    constructor
    · have hpre := retryGo_timeout_prefix fn jitter retries baseDelay k 1
        (by omega) le_rfl (fun i hi1 hi2 => hto i hi1 (by omega))
      rw [Nat.add_comm 1 k] at hpre
      rw [retryGo_succ fn jitter retries baseDelay (retries - (k + 1)) (k + 1)] at hpre
      rw [hsucc] at hpre
      rw [hcall, hpre]
      simp [Nat.add_comm]
    · intro hk1
      rcases k with _ | m
      · omega
      · simp only [List.range'_concat, List.map_append, List.map_cons, List.map_nil,
          List.getLast?_concat]
        refine ⟨jitter (m + 1), (hj (m + 1)).1, (hj (m + 1)).2, ?_⟩
        rw [show 1 + 1 * m = m + 1 from by omega]
        rfl
  · intro hto
    have hpre := retryGo_timeout_prefix fn jitter retries baseDelay (retries - 1) 1
      (by omega) le_rfl (fun i hi1 hi2 => hto i hi1 (by omega))
    rw [show 1 + (retries - 1) = retries from by omega] at hpre
    rw [retryGo_succ fn jitter retries baseDelay (retries - retries) retries] at hpre
    rw [hto retries hr le_rfl] at hpre
    rw [hcall, hpre]
    simp [show 1 + (retries - 1) = retries from by omega]

/-- C4: if attempts `1..j-1` time out and attempt `j ≤ retries` raises
a non-timeout exception `e`, `nba_call_with_retry` propagates `e`
immediately: exactly `j` invocations occur (none after the failure),
and only the `j - 1` backoff sleeps from the earlier timeouts are
performed (no sleep follows the non-transient failure). -/
theorem nontransient_propagates {α : Type} (fn : Nat → CallResult α)
    (jitter : Nat → ℚ) (retries : Nat) (baseDelay : ℚ) (e j : Nat)
    (h1 : 1 ≤ j) (hjr : j ≤ retries)
    (hto : ∀ i, 1 ≤ i → i < j → fn i = .readTimeout)
    (hf : fn j = .fatal e) :
    nba_call_with_retry fn jitter retries baseDelay =
      (.raisedFatal e, j, (List.range' 1 (j - 1)).map (sleepFor jitter baseDelay)) := by
  have hcall : nba_call_with_retry fn jitter retries baseDelay =
      retryGo fn jitter retries baseDelay (retries - 1 + 1) 1 := by
    unfold nba_call_with_retry
    rw [show retries - 1 + 1 = retries from by omega]
  have hpre := retryGo_timeout_prefix fn jitter retries baseDelay (j - 1) 1
    (by omega) le_rfl (fun i hi1 hi2 => hto i hi1 (by omega))
  rw [show 1 + (j - 1) = j from by omega] at hpre
  rw [retryGo_succ fn jitter retries baseDelay (retries - j) j] at hpre
  rw [hf] at hpre
  rw [hcall, hpre]
  simp [show 1 + (j - 1) = j from by omega]

/-- Concrete call script for the retry witnesses: times out on the
first two attempts, then succeeds with 7. -/
def fnTimeoutTwice : Nat → CallResult Nat :=
  fun i => if i ≤ 2 then .readTimeout else .success 7

/-- Concrete call script that times out once then raises a
non-timeout error 400 on attempt 2. -/
def fnFatalSecond : Nat → CallResult Nat :=
  fun i => if i = 2 then .fatal 400 else .readTimeout

/-- Constant jitter oracle used by the witnesses. -/
def jHalf : Nat → ℚ := fun _ => 1/2

lemma jHalf_mem_range (i : Nat) : (1 : ℚ)/2 ≤ jHalf i ∧ jHalf i < 3/2 := by
  constructor <;> norm_num [jHalf]

theorem retry_bound_and_backoff_witness :
    nba_call_with_retry fnTimeoutTwice jHalf 4 2 =
      (.ok 7, 3, (List.range' 1 2).map (sleepFor jHalf 2)) :=
  ((retry_bound_and_backoff fnTimeoutTwice jHalf 4 2 (by decide)
      jHalf_mem_range).1 2 7 (by decide)
    (fun i h1 h2 => by unfold fnTimeoutTwice; rw [if_pos h2]) rfl).1

theorem nontransient_propagates_witness :
    nba_call_with_retry fnFatalSecond jHalf 5 2 =
      (.raisedFatal 400, 2, (List.range' 1 1).map (sleepFor jHalf 2)) :=
  nontransient_propagates fnFatalSecond jHalf 5 2 400 2 (by decide) (by decide)
    (fun i h1 h2 => by
      unfold fnFatalSecond
      rw [if_neg (by omega)])
    rfl

/-! ## S3 blob store and the existence-gated write paths

The bucket is modelled as an association list from keys to blobs
(a blob is an opaque serialized record set).  `s3ExistsKey` is the
store-level truth of `head_object` succeeding; `putObject` is
`put_object` (unconditional overwrite, here a cons that shadows).
Each write path returns the new store together with the list of keys
actually written by `put_object` during that call. -/

/-- An uploaded record set (contents are irrelevant to idempotency). -/
abbrev Blob := List (List Int)

/-- The bucket: keys with their latest blob. -/
abbrev Store := List (String × Blob)

/-- Whether a prior write landed at `key`. -/
def s3ExistsKey (s : Store) (key : String) : Bool :=
  s.any fun kv => decide (kv.1 = key)

/-- `put_object` (NBA_ETL_Safe.py lines 90-95): unconditional write. -/
def putObject (s : Store) (key : String) (b : Blob) : Store :=
  (key, b) :: s

/-- The composite idempotent-write pattern `if self.s3_exists(key):
skip else upload_parquet(df, key)` used by every gated loader.
Returns the updated store and the keys written (none, or `[key]`). -/
def gatedWrite (s : Store) (key : String) (b : Blob) : Store × List String :=
  if s3ExistsKey s key then (s, []) else (putObject s key b, [key])

/-- Partition key of a game-day snapshot (NBA_ETL_Safe.py lines 148-153). -/
def gamesDayKey (season gameDate : String) : String :=
  "games/season=" ++ season ++ "/game_date=" ++ gameDate ++ "/data.parquet"

/-- Partition key of team game stats (NBA_ETL_Safe.py line 165). -/
def teamGameStatsKey (season gameId : String) : String :=
  "team_game_stats/season=" ++ season ++ "/game_id=" ++ gameId ++ "/data.parquet"

/-- Partition key of player game stats (NBA_ETL_Safe.py line 193). -/
def playerGameStatsKey (season gameId : String) : String :=
  "player_game_stats/season=" ++ season ++ "/game_id=" ++ gameId ++ "/data.parquet"

/-- Partition key of the player-team-history snapshot
(NBA_ETL_Safe.py lines 238-243). -/
def playerTeamHistoryKey (season today : String) : String :=
  "player_team_history/season=" ++ season ++ "/snapshot_date=" ++ today ++ "/data.parquet"

/-- `load_team_game_stats` (lines 163-188): skip when the key exists,
otherwise fetch, merge and upload.  `fetched` is the merged frame the
fetch-and-merge phase would produce for this `(game_id, season)`. -/
def load_team_game_stats (s : Store) (gameId season : String) (fetched : Blob) :
    Store × List String :=
  gatedWrite s (teamGameStatsKey season gameId) fetched

/-- `load_player_game_stats` (lines 191-215): same gate on the player
partition key. -/
def load_player_game_stats (s : Store) (gameId season : String) (fetched : Blob) :
    Store × List String :=
  gatedWrite s (playerGameStatsKey season gameId) fetched

/-- `load_player_team_history` (lines 234-264): one snapshot per day,
gated on the snapshot-date key. -/
def load_player_team_history (s : Store) (season today : String) (fetched : Blob) :
    Store × List String :=
  gatedWrite s (playerTeamHistoryKey season today) fetched

/-- `load_games` (lines 130-159): the `groupby` over game dates is
presented as the list `days` of `(game_date, day-frame)` groups in
iteration order; each day's snapshot write is gated on its key. -/
def load_games (days : List (String × Blob)) (season : String) (s : Store) :
    Store × List String :=
  match days with
  | [] => (s, [])
  | (d, b) :: rest =>
    let r := gatedWrite s (gamesDayKey season d) b
    let rr := load_games rest season r.1
    (rr.1, r.2 ++ rr.2)

/-- Re-running a write path: perform the call `n` times, threading the
store and collecting all keys written. -/
def runs (step : Store → Store × List String) : Nat → Store → Store × List String
  | 0, s => (s, [])
  | n + 1, s =>
    let r := step s
    let rest := runs step n r.1
    (rest.1, r.2 ++ rest.2)

lemma s3ExistsKey_putObject_self (s : Store) (key : String) (b : Blob) :
    s3ExistsKey (putObject s key b) key = true := by
  simp [s3ExistsKey, putObject]

lemma s3ExistsKey_putObject_mono (s : Store) (key k : String) (b : Blob)
    (h : s3ExistsKey s k = true) :
    s3ExistsKey (putObject s key b) k = true := by
  simp [s3ExistsKey, putObject] at *
  exact Or.inr h

/-- After a gated write at `key`, the key exists. -/
lemma gatedWrite_exists_self (s : Store) (key : String) (b : Blob) :
    s3ExistsKey (gatedWrite s key b).1 key = true := by
  unfold gatedWrite
  by_cases h : s3ExistsKey s key
  · simp [h]
  · simp [h, s3ExistsKey_putObject_self]

/-- A gated write never removes keys. -/
lemma gatedWrite_exists_mono (s : Store) (key k : String) (b : Blob)
    (h : s3ExistsKey s k = true) :
    s3ExistsKey (gatedWrite s key b).1 k = true := by
  unfold gatedWrite
  by_cases hk : s3ExistsKey s key
  · simp [hk, h]
  · simp [hk, s3ExistsKey_putObject_mono _ _ _ _ h]

/-- On a store that already has `key`, the gated write is a no-op. -/
lemma gatedWrite_of_exists (s : Store) (key : String) (b : Blob)
    (h : s3ExistsKey s key = true) :
    gatedWrite s key b = (s, []) := by
  unfold gatedWrite
  simp [h]

/-- Once `key` exists, any number of further gated writes at `key` is
a complete no-op. -/
lemma runs_gatedWrite_of_exists (key : String) (b : Blob) :
    ∀ (n : Nat) (s : Store), s3ExistsKey s key = true →
    runs (fun st => gatedWrite st key b) n s = (s, []) := by
  intro n
  induction n with
  | zero => intro s _; rfl
  | succ n ih =>
    intro s h
    show (let r := gatedWrite s key b
          let rest := runs (fun st => gatedWrite st key b) n r.1
          (rest.1, r.2 ++ rest.2)) = (s, [])
    rw [gatedWrite_of_exists s key b h]
    simp [ih s h]

/-- Across any number of runs, the gated write at `key` performs at
most one put: none if the key already landed, exactly one otherwise. -/
lemma runs_gatedWrite_writes (key : String) (b : Blob) (n : Nat) (s : Store) :
    (runs (fun st => gatedWrite st key b) (n + 1) s).2 =
      if s3ExistsKey s key then [] else [key] := by
  by_cases h : s3ExistsKey s key
  · rw [runs_gatedWrite_of_exists key b (n + 1) s h]
    simp [h]
  · show (let r := gatedWrite s key b
          let rest := runs (fun st => gatedWrite st key b) n r.1
          (rest.1, r.2 ++ rest.2)).2 = _
    have hg : gatedWrite s key b = (putObject s key b, [key]) := by
      unfold gatedWrite
      simp [h]
    rw [hg]
    simp [runs_gatedWrite_of_exists key b n _ (s3ExistsKey_putObject_self s key b), h]

lemma s3ExistsKey_putObject_of_ne (s : Store) (k' k : String) (b : Blob)
    (h : k' ≠ k) : s3ExistsKey (putObject s k' b) k = s3ExistsKey s k := by
  simp [s3ExistsKey, putObject, h]

lemma gatedWrite_exists_of_ne (s : Store) (key k : String) (b : Blob)
    (h : key ≠ k) : s3ExistsKey (gatedWrite s key b).1 k = s3ExistsKey s k := by
  unfold gatedWrite
  by_cases hw : s3ExistsKey s key <;>
    simp [hw, s3ExistsKey_putObject_of_ne _ _ _ _ h]

lemma load_games_exists_mono (season k : String) :
    ∀ (days : List (String × Blob)) (s : Store), s3ExistsKey s k = true →
    s3ExistsKey (load_games days season s).1 k = true := by
  intro days
  induction days with
  | nil => intro s h; exact h
  | cons db rest ih =>
    intro s h
    obtain ⟨d, b⟩ := db
    simp only [load_games]
    exact ih _ (gatedWrite_exists_mono _ _ _ _ h)

lemma load_games_not_written (season k : String) :
    ∀ (days : List (String × Blob)) (s : Store), s3ExistsKey s k = true →
    k ∉ (load_games days season s).2 := by
  intro days
  induction days with
  | nil => intro s _ hmem; simp [load_games] at hmem
  | cons db rest ih =>
    intro s h hmem
    obtain ⟨d, b⟩ := db
    simp only [load_games, List.mem_append] at hmem
    by_cases hw : s3ExistsKey s (gamesDayKey season d)
    · rw [gatedWrite_of_exists _ _ _ hw] at hmem
      rcases hmem with hmem | hmem
      · simp at hmem
      · exact ih s h hmem
    · have hgk : gamesDayKey season d ≠ k := by
        intro he
        rw [he] at hw
        exact hw h
      have hg : gatedWrite s (gamesDayKey season d) b =
          (putObject s (gamesDayKey season d) b, [gamesDayKey season d]) := by
        unfold gatedWrite
        simp [hw]
      rw [hg] at hmem
      rcases hmem with hmem | hmem
      · simp at hmem
        exact hgk hmem.symm
      · exact ih _ (s3ExistsKey_putObject_mono _ _ _ _ h) hmem

lemma load_games_count_le_one (season : String) :
    ∀ (days : List (String × Blob)) (s : Store) (k : String),
    ((load_games days season s).2).count k ≤ 1 := by
  intro days
  induction days with
  | nil => intro s k; simp [load_games]
  | cons db rest ih =>
    intro s k
    obtain ⟨d, b⟩ := db
    simp only [load_games]
    by_cases hw : s3ExistsKey s (gamesDayKey season d)
    · rw [gatedWrite_of_exists _ _ _ hw]
      simpa using ih s k
    · have hg : gatedWrite s (gamesDayKey season d) b =
          (putObject s (gamesDayKey season d) b, [gamesDayKey season d]) := by
        unfold gatedWrite
        simp [hw]
      rw [hg]
      simp only [List.count_append]
      by_cases hk : k = gamesDayKey season d
      · subst hk
        have hnm : gamesDayKey season d ∉
            (load_games rest season (putObject s (gamesDayKey season d) b)).2 :=
          load_games_not_written season _ rest _
            (s3ExistsKey_putObject_self s (gamesDayKey season d) b)
        rw [List.count_eq_zero.mpr hnm]
        simp
      · rw [List.count_cons]
        simp only [List.count_nil]
        have : (gamesDayKey season d == k) = false := by
          simp [Ne.symm hk]
        simp [this]
        exact le_trans (ih _ k) le_rfl

lemma load_games_all_exist (season : String) :
    ∀ (days : List (String × Blob)) (s : Store) (d : String) (b : Blob),
    (d, b) ∈ days →
    s3ExistsKey (load_games days season s).1 (gamesDayKey season d) = true := by
  intro days
  induction days with
  | nil => intro s d b h; simp at h
  | cons db rest ih =>
    intro s d b h
    obtain ⟨d', b'⟩ := db
    simp only [load_games]
    rcases List.mem_cons.mp h with h | h
    · injection h with h1 h2
      subst h1
      exact load_games_exists_mono season _ rest _ (gatedWrite_exists_self _ _ _)
    · exact ih _ d b h

lemma load_games_of_all_exist (season : String) :
    ∀ (days : List (String × Blob)) (s : Store),
    (∀ d b, (d, b) ∈ days → s3ExistsKey s (gamesDayKey season d) = true) →
    load_games days season s = (s, []) := by
  intro days
  induction days with
  | nil => intro s _; rfl
  | cons db rest ih =>
    intro s h
    obtain ⟨d, b⟩ := db
    simp only [load_games]
    rw [gatedWrite_of_exists _ _ _ (h d b (List.mem_cons_self _ _))]
    rw [ih s (fun d' b' h' => h d' b' (List.mem_cons_of_mem _ h'))]
    rfl

lemma load_games_mem_writes (season : String) :
    ∀ (days : List (String × Blob)) (s : Store) (d : String) (b : Blob),
    (d, b) ∈ days → s3ExistsKey s (gamesDayKey season d) = false →
    gamesDayKey season d ∈ (load_games days season s).2 := by
  intro days
  induction days with
  | nil => intro s d b h _; simp at h
  | cons db rest ih =>
    intro s d b h hfresh
    obtain ⟨d', b'⟩ := db
    simp only [load_games, List.mem_append]
    rcases List.mem_cons.mp h with h | h
    · injection h with h1 h2
      subst h1
      have hg : gatedWrite s (gamesDayKey season d) b' =
          (putObject s (gamesDayKey season d) b', [gamesDayKey season d]) := by
        unfold gatedWrite
        simp [hfresh]
      rw [hg]
      exact Or.inl (List.mem_singleton.mpr rfl)
    · by_cases hkeq : gamesDayKey season d' = gamesDayKey season d
      · by_cases hw : s3ExistsKey s (gamesDayKey season d')
        · rw [hkeq] at hw
          rw [hw] at hfresh
          exact absurd hfresh (by simp)
        · have hg : gatedWrite s (gamesDayKey season d') b' =
              (putObject s (gamesDayKey season d') b', [gamesDayKey season d']) := by
            unfold gatedWrite
            simp [hw]
          rw [hg]
          exact Or.inl (List.mem_singleton.mpr hkeq.symm)
      · refine Or.inr (ih _ d b h ?_)
        rw [gatedWrite_exists_of_ne s _ _ b' hkeq]
        exact hfresh

/-- The property bundle of an existence-gated write path at a fixed
partition key: after one invocation the key exists; a second
invocation with the same input observes `exists = true`, performs no
put and leaves the store unchanged; starting from a store where the
key has not landed, the two invocations together perform exactly one
put (of that key); and across any number of runs at most one put of
the key ever occurs. -/
def gatedIdempotent (step : Store → Store × List String) (key : String)
    (s : Store) : Prop :=
  s3ExistsKey (step s).1 key = true
  ∧ step (step s).1 = ((step s).1, [])
  ∧ (s3ExistsKey s key = false → (step s).2 ++ (step (step s).1).2 = [key])
  ∧ ∀ n, ((runs step n s).2).count key ≤ 1

lemma gatedWrite_gatedIdempotent (key : String) (b : Blob) (s : Store) :
    gatedIdempotent (fun st => gatedWrite st key b) key s := by
  have hself := gatedWrite_exists_self s key b
  refine ⟨hself, gatedWrite_of_exists _ _ _ hself, ?_, ?_⟩
  · intro hfresh
    have hg : gatedWrite s key b = (putObject s key b, [key]) := by
      unfold gatedWrite
      simp [hfresh]
    show (gatedWrite s key b).2 ++ (gatedWrite (gatedWrite s key b).1 key b).2 = [key]
    rw [gatedWrite_of_exists _ _ _ hself, hg]
    rfl
  · intro n
    cases n with
    | zero => simp [runs]
    | succ n =>
      rw [runs_gatedWrite_writes key b n s]
      by_cases h : s3ExistsKey s key <;> simp [h]

/-- C1: each of the four existence-gated write paths — game-day
snapshots (`load_games`), team game stats, player game stats, and the
player-team-history snapshot — writes each partition key at most once
across all runs: the second invocation with the same input observes
`exists = true`, performs no put and is a no-op, and a fresh key is
written exactly once. -/
theorem existence_gated_write_paths_idempotent
    (s : Store) (season gameId today : String) (bt bp bh : Blob)
    (days : List (String × Blob)) :
    gatedIdempotent (fun st => load_team_game_stats st gameId season bt)
      (teamGameStatsKey season gameId) s
  ∧ gatedIdempotent (fun st => load_player_game_stats st gameId season bp)
      (playerGameStatsKey season gameId) s
  ∧ gatedIdempotent (fun st => load_player_team_history st season today bh)
      (playerTeamHistoryKey season today) s
  ∧ (load_games days season (load_games days season s).1 =
      ((load_games days season s).1, [])
    ∧ (∀ k, ((load_games days season s).2 ++
        (load_games days season (load_games days season s).1).2).count k ≤ 1)
    ∧ ∀ d b, (d, b) ∈ days → s3ExistsKey s (gamesDayKey season d) = false →
        ((load_games days season s).2 ++
          (load_games days season (load_games days season s).1).2).count
            (gamesDayKey season d) = 1) := by
  have hsecond : load_games days season (load_games days season s).1 =
      ((load_games days season s).1, []) :=
    load_games_of_all_exist season days _
      (fun d b h => load_games_all_exist season days s d b h)
  refine ⟨gatedWrite_gatedIdempotent _ bt s,
          gatedWrite_gatedIdempotent _ bp s,
          gatedWrite_gatedIdempotent _ bh s,
          hsecond, ?_, ?_⟩
  · intro k
    rw [hsecond]
    simpa using load_games_count_le_one season days s k
  · intro d b hmem hfresh
    rw [hsecond]
    simp only [List.count_append, List.count_nil, Nat.add_zero]
    have hle := load_games_count_le_one season days s (gamesDayKey season d)
    have hge : 1 ≤ ((load_games days season s).2).count (gamesDayKey season d) :=
      List.one_le_count_iff.mpr (load_games_mem_writes season days s d b hmem hfresh)
    omega

/-- Witness for C1 at a concrete fresh store: two runs of the team
stats loader over an empty bucket put the partition key exactly
once. -/
theorem existence_gated_write_paths_idempotent_witness :
    (load_team_game_stats [] "0022400001" "2024-25" []).2 ++
      (load_team_game_stats
        (load_team_game_stats [] "0022400001" "2024-25" []).1
        "0022400001" "2024-25" []).2 = [teamGameStatsKey "2024-25" "0022400001"] :=
  (existence_gated_write_paths_idempotent [] "2024-25" "0022400001" "2024-10-22"
    [] [] [] []).1.2.2.1 (by rfl)

/-! ## `s3_exists` (NBA_ETL_Safe.py lines 78-83)

`head_object` can succeed, fail with a not-found error, or fail with
any other infrastructure error (permission denied, network failure,
carried here as a numeric code).  The method body is
`try: head_object(...); return True` followed by a bare
`except: return False`, so its embedding returns an `Except` value
exposing whether an exception escapes to the caller. -/

/-- Outcome of the underlying `head_object` call for a key. -/
inductive HeadOutcome where
  | found
  | notFound
  | infraError (code : Nat)
deriving DecidableEq, Repr

/-- `s3_exists`: the bare `except:` catches every exception class, so
the method returns `False` for a not-found error and for every
infrastructure error alike, and never lets an error escape. -/
def s3_exists (h : HeadOutcome) : Except Nat Bool :=
  match h with
  | .found => .ok true
  | .notFound => .ok false
  | .infraError _ => .ok false

/-- Counterexample to C3: a permission failure (HTTP 403) of the
existence check is swallowed and reported as `False`, i.e. it is
conflated with "does not exist" instead of being surfaced to the
caller as an infrastructure error. -/
theorem s3_exists_swallows_infra_error :
    s3_exists (.infraError 403) = .ok false := rfl

/-- C3 (amended): `s3_exists` returns `false` without raising on a
not-found condition, and it also returns `false` without raising on
every other failure of the existence check — no failure of
`head_object` is ever surfaced to the caller. -/
theorem s3_exists_never_raises (h : HeadOutcome) :
    (s3_exists h).isOk = true
    ∧ (s3_exists h = .ok true ↔ h = .found)
    ∧ (h = .notFound → s3_exists h = .ok false)
    ∧ (∀ code, h = .infraError code → s3_exists h = .ok false) := by
  cases h <;> simp [s3_exists, Except.isOk, Except.toBool]

/-- Witness for the amended C3 at concrete head outcomes. -/
theorem s3_exists_never_raises_witness :
    s3_exists .notFound = .ok false ∧ s3_exists (.infraError 500) = .ok false :=
  ⟨(s3_exists_never_raises .notFound).2.2.1 rfl,
   (s3_exists_never_raises (.infraError 500)).2.2.2 500 rfl⟩

/-! ## Per-game fan-out (NBA_ETL_Safe.py lines 321-342)

The body of the per-game loop is
`try: load_team_game_stats; load_player_game_stats;
load_player_team_history; if include_shot_zones: ...` followed by
`except Exception: logger.error(...)`.  Whether each entity load
raises for a given game is an oracle `fails`; the embedding records
which entity loads are started for each game. -/

/-- The entity loads issued inside the per-game `try` block. -/
inductive GameEntity where
  | teamStats
  | playerStats
  | teamHistory
  | shotZones
deriving DecidableEq, Repr

/-- The sequence of entity loads the `try` block attempts for one
game, in program order (lines 324-340). -/
def gameEntitySeq (includeShotZones : Bool) : List GameEntity :=
  [.teamStats, .playerStats, .teamHistory] ++
    (if includeShotZones then [.shotZones] else [])

/-- Attempt the entity loads in order; the first one that raises ends
the `try` block (its exception is caught by the per-game handler), so
the loads after it are never started.  Returns the loads started. -/
def attemptEntities (fails : GameEntity → Bool) : List GameEntity → List GameEntity
  | [] => []
  | e :: rest => if fails e then [e] else e :: attemptEntities fails rest

/-- The per-game `try/except` body for game `gid`. -/
def processGame (fails : String → GameEntity → Bool) (includeShotZones : Bool)
    (gid : String) : List GameEntity :=
  attemptEntities (fails gid) (gameEntitySeq includeShotZones)

/-- The fan-out loop over every discovered game id: the `except`
clause swallows each game's failure, so every game is processed. -/
def run_fan_out (fails : String → GameEntity → Bool) (includeShotZones : Bool)
    (gameIds : List String) : List (String × List GameEntity) :=
  gameIds.map fun gid => (gid, processGame fails includeShotZones gid)

/-- Counterexample to C5: when the team-stats load of a game raises,
the player-stats load of that same game is never attempted — the
`try/except` wraps all of the game's entity loads, so the loop does
not continue to the next entity of the same game (it continues with
the next game). -/
theorem fanout_skips_rest_of_game :
    processGame (fun _ e => decide (e = .teamStats)) false "0022400001" =
      [GameEntity.teamStats]
    ∧ GameEntity.playerStats ∉
        processGame (fun _ e => decide (e = .teamStats)) false "0022400001" := by
  constructor
  · rfl
  · decide

lemma attemptEntities_all_ok (fails : GameEntity → Bool) :
    ∀ es : List GameEntity, (∀ e ∈ es, fails e = false) →
    attemptEntities fails es = es := by
  intro es
  induction es with
  | nil => intro _; rfl
  | cons e rest ih =>
    intro h
    unfold attemptEntities
    rw [h e (List.mem_cons_self _ _)]
    simp only [Bool.false_eq_true, if_false]
    rw [ih (fun x hx => h x (List.mem_cons_of_mem _ hx))]

lemma attemptEntities_first_fail (fails : GameEntity → Bool) (e : GameEntity)
    (post : List GameEntity) (hf : fails e = true) :
    ∀ pre : List GameEntity, (∀ x ∈ pre, fails x = false) →
    attemptEntities fails (pre ++ e :: post) = pre ++ [e] := by
  intro pre
  induction pre with
  | nil =>
    intro _
    show attemptEntities fails (e :: post) = [] ++ [e]
    unfold attemptEntities
    rw [hf]
    rfl
  | cons x rest ih =>
    intro h
    show attemptEntities fails (x :: (rest ++ e :: post)) = _
    unfold attemptEntities
    rw [h x (List.mem_cons_self _ _)]
    simp only [Bool.false_eq_true, if_false]
    rw [ih (fun y hy => h y (List.mem_cons_of_mem _ hy))]
    rfl

/-- C5 (amended): no per-game failure aborts the run — the fan-out
processes every discovered game id — and within one game the entity
loads run in order up to and including the first failing one; the
failing entity and all entity loads after it in that game are
skipped, and all entity loads run when none fails. -/
theorem fanout_partial_failure_isolation :
    (∀ (fails : String → GameEntity → Bool) (incl : Bool) (gids : List String),
      (run_fan_out fails incl gids).map Prod.fst = gids)
    ∧ (∀ (fails : String → GameEntity → Bool) (incl : Bool) (gid : String),
        (∀ e ∈ gameEntitySeq incl, fails gid e = false) →
        processGame fails incl gid = gameEntitySeq incl)
    ∧ (∀ (fails : String → GameEntity → Bool) (incl : Bool) (gid : String)
        (pre : List GameEntity) (e : GameEntity) (post : List GameEntity),
        gameEntitySeq incl = pre ++ e :: post →
        (∀ x ∈ pre, fails gid x = false) → fails gid e = true →
        processGame fails incl gid = pre ++ [e]) := by
  refine ⟨?_, ?_, ?_⟩
  · intro fails incl gids
    induction gids with
    | nil => rfl
    | cons g rest ih =>
      simp only [run_fan_out, List.map_cons] at ih ⊢
      rw [ih]
  · intro fails incl gid h
    exact attemptEntities_all_ok (fails gid) _ h
  · intro fails incl gid pre e post hseq hpre hf
    unfold processGame
    rw [hseq]
    exact attemptEntities_first_fail (fails gid) e post hf pre hpre

/-- Witness for the amended C5: with a player-stats failure on one
game, that game attempts team stats then player stats and stops,
while the fan-out still covers both games. -/
theorem fanout_partial_failure_isolation_witness :
    processGame (fun _ e => decide (e = GameEntity.playerStats)) false "0022400001" =
      [GameEntity.teamStats] ++ [GameEntity.playerStats]
    ∧ (run_fan_out (fun _ e => decide (e = GameEntity.playerStats)) false
        ["0022400001", "0022400002"]).map Prod.fst = ["0022400001", "0022400002"] :=
  ⟨fanout_partial_failure_isolation.2.2
      (fun _ e => decide (e = GameEntity.playerStats)) false "0022400001"
      [GameEntity.teamStats] GameEntity.playerStats [GameEntity.teamHistory]
      (by decide) (by decide) (by decide),
   fanout_partial_failure_isolation.1
      (fun _ e => decide (e = GameEntity.playerStats)) false
      ["0022400001", "0022400002"]⟩

/-! ## Optional shot-zone pass (NBA_ETL_Safe.py lines 266-305, 327-340)

When `include_shot_zones` is true, the orchestrator fetches the box
score and, for every row with a truthy `PLAYER_ID` and `MIN` field
different from `"0:00"`, calls `self.load_shot_zones(...)` — but the
class defines no method of that name (the extractor is
`extract_and_load_shot_zones`), so the first dispatch raises
`AttributeError`, which the per-game handler catches.  Attribute
dispatch is modelled against the list of method names actually
defined on the class in the source. -/

/-- The method names defined on `class NBAETLPipeline` in
NBA_ETL_Safe.py. -/
def safePipelineMethodNames : List String :=
  ["__init__", "s3_exists", "upload_parquet", "rate_limit", "load_teams",
   "load_players", "extract_games", "load_games", "load_team_game_stats",
   "load_player_game_stats", "load_standings", "load_player_team_history",
   "extract_and_load_shot_zones", "run"]

/-- The module-level names imported or defined in NBA_ETL_Safe.py
(its import list is at lines 9-30). -/
def safeModuleTopLevelNames : List String :=
  ["boto3", "json", "time", "random", "logging", "os", "BytesIO", "Path",
   "datetime", "timedelta", "UTC", "Dict", "Any", "Optional", "List", "pd",
   "load_dotenv", "ReadTimeout", "leaguegamefinder", "boxscoretraditionalv3",
   "boxscoreadvancedv3", "leaguestandingsv3", "teams", "static_players",
   "env_path", "logger", "nba_call_with_retry", "NBAETLPipeline", "pipeline"]

/-- Python attribute dispatch on the pipeline object: a method call
resolves iff the name is defined on the class, else `AttributeError`
is raised. -/
def callMethod (name : String) : Except String Unit :=
  if safePipelineMethodNames.contains name then .ok ()
  else .error ("AttributeError: " ++ name)

/-- One row of the traditional box score's player frame as consulted
by the shot-zone gate (line 334). -/
structure BoxPlayerRow where
  playerId : Int
  teamId : Int
  minField : String
deriving DecidableEq, Repr

/-- The rows the orchestrator dispatches a shot-zone load for: truthy
`PLAYER_ID` and `MIN` different from the string `"0:00"` (line 334). -/
def shotZoneTargets (rows : List BoxPlayerRow) : List BoxPlayerRow :=
  rows.filter fun r => decide (r.playerId ≠ 0) && decide (r.minField ≠ "0:00")

/-- The partition key the shot-zone extractor would write
(NBA_ETL_Safe.py line 301). -/
def shotZonesKey (season gameId playerId : String) : String :=
  "shot_zones/season=" ++ season ++ "/game_id=" ++ gameId ++
    "/player_id=" ++ playerId ++ "/data.parquet"

/-- The shot-zone section of `run` (lines 327-340): nothing happens
unless the flag is set; with the flag set, the first qualifying row
triggers the dispatch of `self.load_shot_zones`. -/
def shot_zone_step (includeShotZones : Bool) (rows : List BoxPlayerRow) :
    Except String Unit :=
  if includeShotZones then
    match shotZoneTargets rows with
    | [] => .ok ()
    | _ :: _ => callMethod "load_shot_zones"
  else .ok ()

/-- C9 evaluated on the code: the pass is indeed opt-in (nothing runs
when the flag is off), but with the flag on the orchestrator
dispatches `load_shot_zones`, which is not a method of the class, so
the first player with nonzero minutes raises `AttributeError` and no
shot-zone partition is ever written; the extractor body itself also
references `shotchartdetail`, which the module never imports. -/
theorem shot_zone_pass_opt_in_but_never_runs :
    (∀ rows, shot_zone_step false rows = .ok ())
    ∧ "load_shot_zones" ∉ safePipelineMethodNames
    ∧ shot_zone_step true [⟨201939, 1610612744, "34:30"⟩] =
        .error "AttributeError: load_shot_zones"
    ∧ "shotchartdetail" ∉ safeModuleTopLevelNames := by
  refine ⟨fun rows => rfl, by decide, ?_, by decide⟩
  rfl

/-- Witness for C9: with the flag off, the shot-zone step of `run`
does nothing for a concrete nonzero-minutes player row. -/
theorem shot_zone_pass_opt_in_but_never_runs_witness :
    shot_zone_step false [⟨201939, 1610612744, "34:30"⟩] = .ok () :=
  shot_zone_pass_opt_in_but_never_runs.1 [⟨201939, 1610612744, "34:30"⟩]

end NBAETLSafe

namespace Pandas

/-! ## Model of `pandas.merge` on key-value row lists

A data frame with a join key is a list of `(key, payload)` rows.
`DataFrame.merge(..., how="left")` emits, for each left row in order,
one output row per matching right row, or a single row with nulls on
the right side when there is no match; the default `how="inner"` emits
only the matching combinations. -/

variable {κ α β : Type} [DecidableEq κ]

/-- `trad.merge(adv, on=key, how="left")`: right-side payload is
`none` where the advanced side has no matching key. -/
def leftMerge : List (κ × α) → List (κ × β) → List (κ × α × Option β)
  | [], _ => []
  | t :: rest, adv =>
    (match adv.filter (fun a => decide (a.1 = t.1)) with
     | [] => [(t.1, t.2, none)]
     | ms => ms.map fun a => (t.1, t.2, some a.2)) ++ leftMerge rest adv

/-- `pd.merge(trad, adv, on=key)` with the default `how="inner"`:
left rows without a match produce no output row. -/
def innerMerge : List (κ × α) → List (κ × β) → List (κ × α × Option β)
  | [], _ => []
  | t :: rest, adv =>
    ((adv.filter fun a => decide (a.1 = t.1)).map fun a => (t.1, t.2, some a.2)) ++
      innerMerge rest adv

lemma filter_eq_find?_toList (adv : List (κ × β)) (k : κ)
    (h : (adv.map Prod.fst).Nodup) :
    adv.filter (fun a => decide (a.1 = k)) =
      (adv.find? fun a => decide (a.1 = k)).toList := by
  induction adv with
  | nil => rfl
  | cons a rest ih =>
    simp only [List.map_cons, List.nodup_cons] at h
    by_cases hk : a.1 = k
    · rw [List.filter_cons_of_pos (by simp [hk]), List.find?_cons_of_pos _ (by simp [hk])]
      have hrest : rest.filter (fun x => decide (x.1 = k)) = [] := by
        apply List.filter_eq_nil_iff.mpr
        intro x hx
        simp only [decide_eq_true_eq]
        intro hxk
        exact h.1 (by
          rw [← hk] at hxk
          exact (List.mem_map.mpr ⟨x, hx, hxk.symm ▸ rfl⟩))
      rw [hrest]
      rfl
    · rw [List.filter_cons_of_neg (by simp [hk]), List.find?_cons_of_neg _ (by simp [hk])]
      exact ih h.2

/-- Under unique advanced keys, a left merge emits exactly one row per
traditional row, in order, pairing it with the advanced payload when
present and null otherwise. -/
lemma leftMerge_eq_map (trad : List (κ × α)) (adv : List (κ × β))
    (h : (adv.map Prod.fst).Nodup) :
    leftMerge trad adv =
      trad.map fun t =>
        (t.1, t.2, (adv.find? fun a => decide (a.1 = t.1)).map Prod.snd) := by
  induction trad with
  | nil => rfl
  | cons t rest ih =>
    show (match adv.filter (fun a => decide (a.1 = t.1)) with
      | [] => [(t.1, t.2, none)]
      | ms => ms.map fun a => (t.1, t.2, some a.2)) ++ leftMerge rest adv = _
    rw [filter_eq_find?_toList adv t.1 h, ih]
    cases hf : adv.find? fun a => decide (a.1 = t.1) <;> simp [hf, Option.toList]

/-- Under unique advanced keys, an inner merge keeps exactly the
traditional rows that have an advanced match, dropping the rest. -/
lemma innerMerge_eq_filter_map (trad : List (κ × α)) (adv : List (κ × β))
    (h : (adv.map Prod.fst).Nodup) :
    innerMerge trad adv =
      (trad.filter fun t => (adv.find? fun a => decide (a.1 = t.1)).isSome).map
        fun t => (t.1, t.2, (adv.find? fun a => decide (a.1 = t.1)).map Prod.snd) := by
  induction trad with
  | nil => rfl
  | cons t rest ih =>
    show ((adv.filter fun a => decide (a.1 = t.1)).map fun a => (t.1, t.2, some a.2)) ++
        innerMerge rest adv = _
    rw [filter_eq_find?_toList adv t.1 h, ih]
    cases hf : adv.find? fun a => decide (a.1 = t.1) <;>
      simp [hf, Option.toList, List.filter_cons]

end Pandas

namespace NBAETLSafe

/-- Join key of the team box-score merge: `(GAME_ID, TEAM_ID)`. -/
abbrev TeamKey := String × Int

/-- Opaque payload columns of a box-score row. -/
abbrev Cols := List ℚ

/-- `load_team_game_stats` merge (NBA_ETL_Safe.py lines 180-185):
`trad.merge(adv, on=["GAME_ID", "TEAM_ID"], how="left")`. -/
def safe_team_merge (trad : List (TeamKey × Cols)) (adv : List (TeamKey × Cols)) :
    List (TeamKey × Cols × Option Cols) :=
  Pandas.leftMerge trad adv

/-- `load_player_game_stats` merge (NBA_ETL_Safe.py lines 208-212):
`trad.merge(adv[["PLAYER_ID", "USG_PCT"]], on="PLAYER_ID",
how="left")` — joined on the player id alone, with the advanced side
projected to the usage column. -/
def safe_player_merge (trad : List (Int × Cols)) (advUsg : List (Int × ℚ)) :
    List (Int × Cols × Option ℚ) :=
  Pandas.leftMerge trad advUsg

end NBAETLSafe

namespace NBAETLRel

/-- `extract_and_load_team_game_stats` merge (NBA_ETL.py lines
311-316): `pd.merge(trad_df, adv_df, on=["GAME_ID", "TEAM_ID"],
suffixes=("", "_adv"))` — no `how` argument, so the pandas default
`how="inner"` applies. -/
def etl_team_merge (trad : List (NBAETLSafe.TeamKey × NBAETLSafe.Cols))
    (adv : List (NBAETLSafe.TeamKey × NBAETLSafe.Cols)) :
    List (NBAETLSafe.TeamKey × NBAETLSafe.Cols × Option NBAETLSafe.Cols) :=
  Pandas.innerMerge trad adv

/-- Counterexample to C8: in the relational variant's team merge the
join is the pandas default inner join, so a traditional row with no
advanced match is dropped instead of appearing once with null
advanced fields. -/
theorem etl_team_merge_drops_unmatched_row :
    (etl_team_merge [((("0022400001" : String), (1610612744 : Int)), ([100] : List ℚ))] []).length = 0
    ∧ ([((("0022400001" : String), (1610612744 : Int)), ([100] : List ℚ))]).length = 1 :=
  ⟨rfl, rfl⟩

/-- C8 (amended): in the safe variant both box-score merges are left
joins from traditional to advanced (team stats on `(game id, team
id)`, player stats on the player id alone), so — provided the
advanced table has at most one row per join key — every traditional
row appears in the output exactly once, with null advanced fields
when the advanced side is missing; in the relational variant's team
merge the join is inner, so traditional rows without an advanced
match are dropped. -/
theorem box_score_merges (advT : List (NBAETLSafe.TeamKey × NBAETLSafe.Cols))
    (tradT : List (NBAETLSafe.TeamKey × NBAETLSafe.Cols))
    (tradP : List (Int × NBAETLSafe.Cols)) (advP : List (Int × ℚ))
    (hT : (advT.map Prod.fst).Nodup) (hP : (advP.map Prod.fst).Nodup) :
    NBAETLSafe.safe_team_merge tradT advT =
      (tradT.map fun t =>
        (t.1, t.2, (advT.find? fun a => decide (a.1 = t.1)).map Prod.snd))
    ∧ NBAETLSafe.safe_player_merge tradP advP =
      (tradP.map fun t =>
        (t.1, t.2, (advP.find? fun a => decide (a.1 = t.1)).map Prod.snd))
    ∧ etl_team_merge tradT advT =
      ((tradT.filter fun t => (advT.find? fun a => decide (a.1 = t.1)).isSome).map
        fun t => (t.1, t.2, (advT.find? fun a => decide (a.1 = t.1)).map Prod.snd)) :=
  ⟨Pandas.leftMerge_eq_map tradT advT hT,
   Pandas.leftMerge_eq_map tradP advP hP,
   Pandas.innerMerge_eq_filter_map tradT advT hT⟩

/-- Witness for the amended C8: one traditional team row with a
matching advanced row, one without; the safe left merge keeps both
(nulling the missing advanced side), the relational inner merge keeps
only the matched row. -/
theorem box_score_merges_witness :
    NBAETLSafe.safe_team_merge
        [(("0022400001", (1 : Int)), ([100] : List ℚ)),
         (("0022400001", (2 : Int)), ([90] : List ℚ))]
        [(("0022400001", (1 : Int)), ([7] : List ℚ))] =
      [(("0022400001", (1 : Int)), ([100] : List ℚ), some ([7] : List ℚ)),
       (("0022400001", (2 : Int)), ([90] : List ℚ), none)]
    ∧ etl_team_merge
        [(("0022400001", (1 : Int)), ([100] : List ℚ)),
         (("0022400001", (2 : Int)), ([90] : List ℚ))]
        [(("0022400001", (1 : Int)), ([7] : List ℚ))] =
      [(("0022400001", (1 : Int)), ([100] : List ℚ), some ([7] : List ℚ))] := by
  have h := box_score_merges
    [(("0022400001", (1 : Int)), ([7] : List ℚ))]
    [(("0022400001", (1 : Int)), ([100] : List ℚ)),
     (("0022400001", (2 : Int)), ([90] : List ℚ))]
    [] [] (by decide) (by decide)
  exact ⟨by rw [h.1]; rfl, by rw [h.2.2]; rfl⟩

/-! ## Transaction discipline of the self-handling loaders (NBA_ETL.py)

`extract_and_load_team_game_stats` (388-390),
`extract_and_load_player_game_stats` (478-480),
`extract_and_load_shot_zones` (548-550) and
`extract_and_load_standings` (613-615) share one skeleton:
`try: <extract>; execute_batch(...); self.conn.commit()` followed by
`except Exception as e: logger.error(...); self.conn.rollback()`.
The database connection is modelled by its committed writes and the
statements pending in the open transaction; an exception anywhere in
the `try` block (modelled as a cut-off point `failAfter` in the
statement stream) reaches the handler, which rolls back and returns
normally. -/

/-- The database connection: committed writes and the statements
executed in the currently open transaction. -/
structure DBState where
  committed : List String
  pending : List String
deriving DecidableEq, Repr

/-- `execute_batch` executing one statement inside the transaction. -/
def execStmt (st : DBState) (x : String) : DBState :=
  { st with pending := st.pending ++ [x] }

/-- `self.conn.commit()`. -/
def commitTx (st : DBState) : DBState :=
  ⟨st.committed ++ st.pending, []⟩

/-- `self.conn.rollback()`. -/
def rollbackTx (st : DBState) : DBState :=
  { st with pending := [] }

/-- The shared loader skeleton, instantiated by the four self-handling
loaders through their entity prefix (`team_game_stats`,
`player_game_stats`, `shot_zones_game`, `conference_standings`).
`rows` are the statements the loader's batch would execute;
`failAfter = none` is the exception-free execution ending in `commit`,
`failAfter = some j` is an exception raised after `j` statements,
reaching the `except` clause which logs and rolls back.  The boolean
is whether an exception escapes the loader. -/
def relational_loader (entity : String) (st : DBState) (rows : List String)
    (failAfter : Option Nat) : DBState × Bool :=
  let stmts := rows.map fun r => entity ++ ":" ++ r
  match failAfter with
  | none => (commitTx (stmts.foldl execStmt st), false)
  | some j => (rollbackTx ((stmts.take j).foldl execStmt st), false)

lemma foldl_execStmt_committed : ∀ (stmts : List String) (st : DBState),
    (stmts.foldl execStmt st).committed = st.committed := by
  intro stmts
  induction stmts with
  | nil => intro st; rfl
  | cons x rest ih => intro st; exact ih (execStmt st x)

lemma foldl_execStmt_pending : ∀ (stmts : List String) (st : DBState),
    (stmts.foldl execStmt st).pending = st.pending ++ stmts := by
  intro stmts
  induction stmts with
  | nil => intro st; simp
  | cons x rest ih =>
    intro st
    show (rest.foldl execStmt (execStmt st x)).pending = _
    rw [ih (execStmt st x)]
    simp [execStmt]

/-- C10: every self-handling loader of the relational variant catches
any exception raised during extraction or loading, rolls back the
open transaction and returns normally — no exception escapes, on
error the committed state is exactly what it was before the call and
no statement stays pending — while the exception-free execution
commits precisely the loader's batch. -/
theorem relational_loader_error_isolation (entity : String) (st : DBState)
    (rows : List String) (j : Nat) :
    (relational_loader entity st rows (some j)).2 = false
    ∧ (relational_loader entity st rows (some j)).1.committed = st.committed
    ∧ (relational_loader entity st rows (some j)).1.pending = []
    ∧ (relational_loader entity st rows none).2 = false
    ∧ (relational_loader entity st rows none).1.committed =
        st.committed ++ st.pending ++ (rows.map fun r => entity ++ ":" ++ r) := by
  refine ⟨rfl, ?_, rfl, rfl, ?_⟩
  · show (rollbackTx (((rows.map fun r => entity ++ ":" ++ r).take j).foldl execStmt st)).committed = _
    show ((((rows.map fun r => entity ++ ":" ++ r).take j).foldl execStmt st)).committed = _
    rw [foldl_execStmt_committed]
  · show (commitTx ((rows.map fun r => entity ++ ":" ++ r).foldl execStmt st)).committed = _
    show ((rows.map fun r => entity ++ ":" ++ r).foldl execStmt st).committed ++
      ((rows.map fun r => entity ++ ":" ++ r).foldl execStmt st).pending = _
    rw [foldl_execStmt_committed, foldl_execStmt_pending]
    simp

/-- Witness for C10 at a concrete connection state: a failure after
one statement leaves the committed writes untouched. -/
theorem relational_loader_error_isolation_witness :
    (relational_loader "team_game_stats" ⟨["w0"], []⟩ ["r1", "r2"] (some 1)).1.committed
      = ["w0"] :=
  (relational_loader_error_isolation "team_game_stats" ⟨["w0"], []⟩ ["r1", "r2"] 1).2.1

end NBAETLRel

namespace PyStr

/-! ## Python string primitives on character lists

The character-level operations the loaders use — `c in s`,
`s.split(c)` and `float(s)` — modelled over `List Char`. -/

/-- `c in s`. -/
def hasChar (c : Char) : List Char → Bool
  | [] => false
  | x :: r => decide (x = c) || hasChar c r

/-- `s.split(c)` with no maxsplit: always at least one part, empty
parts preserved. -/
def splitOnChar (sep : Char) : List Char → List (List Char)
  | [] => [[]]
  | c :: rest =>
    if c = sep then [] :: splitOnChar sep rest
    else match splitOnChar sep rest with
      | [] => [[c]]
      | p :: ps => (c :: p) :: ps

lemma hasChar_iff (c : Char) : ∀ l : List Char, hasChar c l = true ↔ c ∈ l := by
  intro l
  induction l with
  | nil => simp [hasChar]
  | cons x r ih =>
    simp [hasChar, ih]
    constructor
    · rintro (h | h)
      · exact Or.inl h.symm
      · exact Or.inr h
    · rintro (h | h)
      · exact Or.inl h.symm
      · exact Or.inr h

lemma hasChar_eq_false (c : Char) (l : List Char) (h : c ∉ l) :
    hasChar c l = false := by
  rw [← Bool.not_eq_true, hasChar_iff]
  exact h

lemma splitOnChar_of_not_mem (sep : Char) :
    ∀ l : List Char, sep ∉ l → splitOnChar sep l = [l] := by
  intro l
  induction l with
  | nil => intro _; rfl
  | cons c rest ih =>
    intro h
    have hc : ¬ (c = sep) := fun he => h (he ▸ List.mem_cons_self _ _)
    unfold splitOnChar
    rw [if_neg hc, ih (fun hm => h (List.mem_cons_of_mem _ hm))]

lemma splitOnChar_append (sep : Char) (s : List Char) :
    ∀ m : List Char, sep ∉ m →
    splitOnChar sep (m ++ sep :: s) = m :: splitOnChar sep s := by
  intro m
  induction m with
  | nil =>
    intro _
    show splitOnChar sep (sep :: s) = [] :: splitOnChar sep s
    simp [splitOnChar]
  | cons c m' ih =>
    intro h
    have hc : ¬ (c = sep) := fun he => h (he ▸ List.mem_cons_self _ _)
    show splitOnChar sep (c :: (m' ++ sep :: s)) = _
    simp only [splitOnChar]
    rw [if_neg hc, ih (fun hm => h (List.mem_cons_of_mem _ hm))]

/-- Decimal digit test used by the `float()` model. -/
def isDigit (c : Char) : Bool := decide ('0' ≤ c) && decide (c ≤ '9')

/-- Value of a digit string. -/
def digitsToNat (cs : List Char) : Nat :=
  cs.foldl (fun n c => n * 10 + (c.toNat - '0'.toNat)) 0

/-- Modelled from the spec and the Python library: `float(s)`
restricted to finite decimal literals — an optional sign, then digits
with at most one decimal point and at least one digit; every other
string (e.g. `"DNP"`, `"None"`, `""`) raises `ValueError`, i.e.
returns `none` here.  Python floats are modelled as exact rationals. -/
def unsignedFloat? (cs : List Char) : Option ℚ :=
  match splitOnChar '.' cs with
  | [ip] =>
    if (!ip.isEmpty) && ip.all isDigit then some ((digitsToNat ip : ℚ)) else none
  | [ip, fp] =>
    if ((!ip.isEmpty) || (!fp.isEmpty)) && ip.all isDigit && fp.all isDigit then
      some ((digitsToNat ip : ℚ) + (digitsToNat fp : ℚ) / ((10 : ℚ) ^ fp.length))
    else none
  | _ => none

/-- `float(s)` with the optional leading sign. -/
def pyFloat? : List Char → Option ℚ
  | '+' :: rest => unsignedFloat? rest
  | '-' :: rest => (unsignedFloat? rest).map Neg.neg
  | cs => unsignedFloat? cs

lemma pyFloat?_nil : pyFloat? [] = none := rfl

/-- Python 3 `round(x, 2)` on exact values: round half to even at the
second decimal place. -/
def roundHalfEven (q : ℚ) : ℤ :=
  let f := ⌊q⌋
  let r := q - (f : ℚ)
  if r < 1/2 then f
  else if 1/2 < r then f + 1
  else if f % 2 = 0 then f else f + 1

/-- `round(x, 2)`. -/
def round2 (q : ℚ) : ℚ := ((roundHalfEven (q * 100) : ℤ) : ℚ) / 100

lemma round2_zero : round2 0 = 0 := by
  norm_num [round2, roundHalfEven]

end PyStr

namespace NBAETLRel

/-! ## Game pairing in `load_games` (NBA_ETL.py lines 237-292)

One raw game-finder row per (game, team).  `games_dict` groups rows
by game id in first-occurrence order (dict insertion order), keeping
the date of the first row seen for the game and appending each row's
team with `is_home = '@' not in row['MATCHUP']`.  A game is emitted
iff its group has exactly two rows and both a home and an away team
are found; the matchup text is modelled by its character list. -/

/-- One row of the `LeagueGameFinder` result frame. -/
structure GFRow where
  gameId : String
  gameDate : String
  matchup : List Char
  teamId : Int
  pts : Int
deriving DecidableEq, Repr

/-- A record inserted into the `games` table. -/
structure GameRecord where
  gameId : String
  gameDate : String
  season : String
  homeTeamId : Int
  awayTeamId : Int
  homeScore : Int
  awayScore : Int
  status : String
deriving DecidableEq, Repr

/-- `is_home = '@' not in row['MATCHUP']` (line 259). -/
def isHomeRow (r : GFRow) : Bool := !(PyStr.hasChar '@' r.matchup)

/-- String membership test for the insertion-order key scan. -/
def memStr (x : String) : List String → Bool
  | [] => false
  | y :: r => decide (y = x) || memStr x r

/-- Keys of a Python dict built by insertion: first-occurrence order. -/
def firstOccAux : List String → List String → List String
  | _, [] => []
  | seen, x :: r =>
    if memStr x seen then firstOccAux seen r
    else x :: firstOccAux (x :: seen) r

/-- The game ids in `games_dict` key order. -/
def firstOcc (l : List String) : List String := firstOccAux [] l

/-- Lines 273-288: emit a game iff its group has exactly two rows,
taking the first home row (`next(t for t in teams if t['is_home'])`)
and the first away row; the record carries the date of the group's
first row and the literal status "Final". -/
def pairGame (season gid : String) (grp : List GFRow) : Option GameRecord :=
  match grp with
  | [r1, r2] =>
    match [r1, r2].find? isHomeRow, [r1, r2].find? (fun r => !isHomeRow r) with
    | some h, some a =>
      some ⟨gid, r1.gameDate, season, h.teamId, a.teamId, h.pts, a.pts, "Final"⟩
    | _, _ => none
  | _ => none

/-- `load_games` (NBA_ETL.py lines 237-292) as the list of records it
inserts: group rows by game id in first-occurrence order and pair
each group. -/
def load_games_records (rows : List GFRow) (season : String) : List GameRecord :=
  (firstOcc (rows.map fun r => r.gameId)).filterMap fun gid =>
    pairGame season gid (rows.filter fun r => decide (r.gameId = gid))

lemma memStr_iff (x : String) : ∀ l : List String, memStr x l = true ↔ x ∈ l := by
  intro l
  induction l with
  | nil => simp [memStr]
  | cons y r ih =>
    simp [memStr, ih]
    constructor
    · rintro (h | h)
      · exact Or.inl h.symm
      · exact Or.inr h
    · rintro (h | h)
      · exact Or.inl h.symm
      · exact Or.inr h

lemma mem_firstOccAux (x : String) :
    ∀ (l seen : List String), x ∈ firstOccAux seen l ↔ (x ∈ l ∧ x ∉ seen) := by
  intro l
  induction l with
  | nil => intro seen; simp [firstOccAux]
  | cons y r ih =>
    intro seen
    by_cases hm : memStr y seen = true
    · have hy : y ∈ seen := (memStr_iff y seen).mp hm
      have hrw : firstOccAux seen (y :: r) = firstOccAux seen r := by
        simp only [firstOccAux]
        rw [if_pos hm]
      rw [hrw, ih seen]
      constructor
      · rintro ⟨hr, hs⟩
        exact ⟨List.mem_cons_of_mem _ hr, hs⟩
      · rintro ⟨hyr, hs⟩
        rcases List.mem_cons.mp hyr with rfl | hr
        · exact absurd hy hs
        · exact ⟨hr, hs⟩
    · have hy : y ∉ seen := fun h => hm ((memStr_iff y seen).mpr h)
      have hrw : firstOccAux seen (y :: r) = y :: firstOccAux (y :: seen) r := by
        simp only [firstOccAux]
        rw [if_neg hm]
      rw [hrw]
      constructor
      · intro hmem
        rcases List.mem_cons.mp hmem with rfl | hmem
        · exact ⟨List.mem_cons_self _ _, hy⟩
        · obtain ⟨hr, hs⟩ := (ih (y :: seen)).mp hmem
          exact ⟨List.mem_cons_of_mem _ hr,
            fun h => hs (List.mem_cons_of_mem _ h)⟩
      · rintro ⟨hyr, hs⟩
        rcases List.mem_cons.mp hyr with rfl | hr
        · exact List.mem_cons_self _ _
        · by_cases hxy : x = y
          · subst hxy
            exact List.mem_cons_self _ _
          · refine List.mem_cons_of_mem _ ((ih (y :: seen)).mpr ⟨hr, ?_⟩)
            intro hmem
            rcases List.mem_cons.mp hmem with h' | h'
            · exact hxy h'
            · exact hs h'

lemma mem_firstOcc (x : String) (l : List String) : x ∈ firstOcc l ↔ x ∈ l := by
  unfold firstOcc
  rw [mem_firstOccAux]
  simp

lemma length_filter_split {γ : Type} (p : γ → Bool) :
    ∀ l : List γ, (l.filter p).length + (l.filter fun x => !p x).length = l.length := by
  intro l
  induction l with
  | nil => rfl
  | cons x r ih =>
    by_cases h : p x <;> simp [List.filter_cons, h] <;> omega

lemma pairGame_gameId (season gid : String) (grp : List GFRow) (rec : GameRecord)
    (h : pairGame season gid grp = some rec) : rec.gameId = gid := by
  match grp with
  | [] => exact absurd h (by simp [pairGame])
  | [r] => exact absurd h (by simp [pairGame])
  | r1 :: r2 :: r3 :: rest => exact absurd h (by simp [pairGame])
  | [r1, r2] =>
    unfold pairGame at h
    cases h1 : isHomeRow r1 <;> cases h2 : isHomeRow r2 <;>
      simp [List.find?, h1, h2] at h
    · rw [← h]
    · rw [← h]

/-- The group of exactly two rows is emitted iff it contains exactly
one home row and one away row. -/
lemma pairGame_isSome_iff (season gid : String) (grp : List GFRow) :
    (pairGame season gid grp).isSome = true ↔
      ((grp.filter isHomeRow).length = 1
        ∧ (grp.filter fun r => !isHomeRow r).length = 1) := by
  match grp with
  | [] => simp [pairGame]
  | [r] =>
    cases h1 : isHomeRow r <;> simp [pairGame, List.filter, h1]
  | r1 :: r2 :: r3 :: rest =>
    have hsplit := length_filter_split isHomeRow (r1 :: r2 :: r3 :: rest)
    constructor
    · intro h
      exact absurd h (by simp [pairGame])
    · intro ⟨ha, hb⟩
      rw [ha, hb] at hsplit
      simp at hsplit
  | [r1, r2] =>
    cases h1 : isHomeRow r1 <;> cases h2 : isHomeRow r2 <;>
      simp [pairGame, List.find?, List.filter, h1, h2]

lemma pairGame_attribution (season gid : String) (grp : List GFRow)
    (rec : GameRecord) (h : pairGame season gid grp = some rec) :
    ∃ hr ar, hr ∈ grp ∧ ar ∈ grp ∧ isHomeRow hr = true ∧ isHomeRow ar = false
      ∧ rec.homeTeamId = hr.teamId ∧ rec.awayTeamId = ar.teamId
      ∧ rec.homeScore = hr.pts ∧ rec.awayScore = ar.pts := by
  match grp with
  | [] => exact absurd h (by simp [pairGame])
  | [r] => exact absurd h (by simp [pairGame])
  | r1 :: r2 :: r3 :: rest => exact absurd h (by simp [pairGame])
  | [r1, r2] =>
    unfold pairGame at h
    cases h1 : isHomeRow r1 <;> cases h2 : isHomeRow r2 <;>
      simp [List.find?, h1, h2] at h
    · refine ⟨r2, r1, by simp, by simp, h2, h1, ?_⟩
      rw [← h]
      exact ⟨rfl, rfl, rfl, rfl⟩
    · refine ⟨r1, r2, by simp, by simp, h1, h2, ?_⟩
      rw [← h]
      exact ⟨rfl, rfl, rfl, rfl⟩

/-- C7: a game id contributes a record to `load_games` output iff its
row group pairs into exactly one home and one away row (home meaning
the matchup text lacks the `'@'` away marker); a group with a single
row never appears; and each emitted record draws its home fields from
a home row and its away fields from an away row of the group. -/
theorem game_pairing (rows : List GFRow) (season gid : String) :
    ((∃ rec, rec ∈ load_games_records rows season ∧ rec.gameId = gid) ↔
      (((rows.filter fun r => decide (r.gameId = gid)).filter isHomeRow).length = 1
        ∧ ((rows.filter fun r => decide (r.gameId = gid)).filter
            fun r => !isHomeRow r).length = 1))
    ∧ ((rows.filter fun r => decide (r.gameId = gid)).length = 1 →
        ∀ rec, rec ∈ load_games_records rows season → rec.gameId ≠ gid)
    ∧ (∀ rec, rec ∈ load_games_records rows season → rec.gameId = gid →
        ∃ hr ar, hr ∈ rows.filter (fun r => decide (r.gameId = gid))
          ∧ ar ∈ rows.filter (fun r => decide (r.gameId = gid))
          ∧ isHomeRow hr = true ∧ isHomeRow ar = false
          ∧ rec.homeTeamId = hr.teamId ∧ rec.awayTeamId = ar.teamId
          ∧ rec.homeScore = hr.pts ∧ rec.awayScore = ar.pts) := by
  have hmem : ∀ rec : GameRecord, rec ∈ load_games_records rows season ↔
      ∃ g, g ∈ firstOcc (rows.map fun r => r.gameId)
        ∧ pairGame season g (rows.filter fun r => decide (r.gameId = g)) = some rec := by
    intro rec
    unfold load_games_records
    rw [List.mem_filterMap]
  have hforward : (∃ rec, rec ∈ load_games_records rows season ∧ rec.gameId = gid) →
      (((rows.filter fun r => decide (r.gameId = gid)).filter isHomeRow).length = 1
        ∧ ((rows.filter fun r => decide (r.gameId = gid)).filter
            fun r => !isHomeRow r).length = 1) := by
    rintro ⟨rec, hrec, hgid⟩
    obtain ⟨g, _, hpair⟩ := (hmem rec).mp hrec
    have hg : rec.gameId = g := pairGame_gameId _ _ _ _ hpair
    have hgg : g = gid := by rw [← hg, hgid]
    subst hgg
    exact (pairGame_isSome_iff season g _).mp (by rw [hpair]; rfl)
  refine ⟨⟨hforward, ?_⟩, ?_, ?_⟩
  · rintro ⟨ha, hb⟩
    have hsome := (pairGame_isSome_iff season gid
      (rows.filter fun r => decide (r.gameId = gid))).mpr ⟨ha, hb⟩
    obtain ⟨rec, hrec⟩ := Option.isSome_iff_exists.mp hsome
    have hglen : (rows.filter fun r => decide (r.gameId = gid)).length = 2 := by
      have := length_filter_split isHomeRow (rows.filter fun r => decide (r.gameId = gid))
      omega
    have hne : (rows.filter fun r => decide (r.gameId = gid)) ≠ [] := by
      intro h
      rw [h] at hglen
      simp at hglen
    obtain ⟨r0, hr0⟩ := List.exists_mem_of_ne_nil _ hne
    have hr0' := List.mem_filter.mp hr0
    have hgin : gid ∈ rows.map fun r => r.gameId :=
      List.mem_map.mpr ⟨r0, hr0'.1, by
        have := hr0'.2
        simp at this
        exact this⟩
    refine ⟨rec, (hmem rec).mpr ⟨gid, (mem_firstOcc _ _).mpr hgin, hrec⟩, ?_⟩
    exact pairGame_gameId _ _ _ _ hrec
  · intro hlen rec hrec hgid
    have h11 := hforward ⟨rec, hrec, hgid⟩
    have := length_filter_split isHomeRow (rows.filter fun r => decide (r.gameId = gid))
    omega
  · intro rec hrec hgid
    obtain ⟨g, _, hpair⟩ := (hmem rec).mp hrec
    have hg : rec.gameId = g := pairGame_gameId _ _ _ _ hpair
    have hgg : g = gid := by rw [← hg, hgid]
    subst hgg
    exact pairGame_attribution _ _ _ _ hpair

/-- Concrete game-finder rows for the pairing witness: game `g1` has a
home row (no `'@'` in the matchup) and an away row, game `g2` has a
single row. -/
def pairingRowsW : List GFRow :=
  [⟨"g1", "2024-12-01", ['v', 's'], 1, 100⟩,
   ⟨"g1", "2024-12-01", ['@'], 2, 90⟩,
   ⟨"g2", "2024-12-01", ['v', 's'], 3, 95⟩]

theorem game_pairing_witness :
    ((pairingRowsW.filter fun r => decide (r.gameId = "g1")).filter isHomeRow).length = 1
    ∧ ((pairingRowsW.filter fun r => decide (r.gameId = "g1")).filter
        fun r => !isHomeRow r).length = 1 :=
  (game_pairing pairingRowsW "2024-25" "g1").1.mp (by decide)

/-! ## Minutes parsing (NBA_ETL.py lines 437-452)

`minutes_str = str(row.get('MIN', '0:00'))`, then inside a `try`:
if `':' in minutes_str`, `mins, secs = minutes_str.split(':')` and
`minutes = float(mins) + float(secs) / 60`; otherwise
`minutes = float(minutes_str) if minutes_str else 0.0`; any exception
(non-numeric parts, or a split into more than two parts) is caught by
the bare `except` and yields `0.0`.  The value inserted is
`round(minutes, 2)` (line 452). -/

/-- The `try/except` minutes computation (lines 438-445). -/
def parse_minutes (cs : List Char) : ℚ :=
  if PyStr.hasChar ':' cs then
    match PyStr.splitOnChar ':' cs with
    | [m, s] =>
      match PyStr.pyFloat? m, PyStr.pyFloat? s with
      | some mv, some sv => mv + sv / 60
      | _, _ => 0
    | _ => 0
  else if cs.isEmpty then 0
  else match PyStr.pyFloat? cs with
    | some v => v
    | none => 0

/-- The value stored for the row: `round(minutes, 2)` (line 452). -/
def minutesValue (cs : List Char) : ℚ := PyStr.round2 (parse_minutes cs)

/-- C6: an `"MM:SS"` string parses to
`round2 (whole_minutes + seconds / 60)`; a bare numeric string parses
as a float minute count (then rounded); an unparsable or absent value
yields `0.0` with no exception escaping; and concretely `"34:30"`
gives `34.5`, `"0:00"` gives `0.0` and `"DNP"` gives `0.0`. -/
theorem minutes_parsing :
    (∀ (m s : List Char) (qm qs : ℚ), ':' ∉ m → ':' ∉ s →
      PyStr.pyFloat? m = some qm → PyStr.pyFloat? s = some qs →
      minutesValue (m ++ ':' :: s) = PyStr.round2 (qm + qs / 60))
    ∧ (∀ (cs : List Char) (q : ℚ), ':' ∉ cs → PyStr.pyFloat? cs = some q →
        minutesValue cs = PyStr.round2 q)
    ∧ (∀ cs : List Char, ':' ∉ cs → PyStr.pyFloat? cs = none → minutesValue cs = 0)
    ∧ minutesValue ('3' :: '4' :: ':' :: '3' :: '0' :: []) = 69/2
    ∧ minutesValue ('0' :: ':' :: '0' :: '0' :: []) = 0
    ∧ minutesValue ('D' :: 'N' :: 'P' :: []) = 0 := by
  have hMMSS : ∀ (m s : List Char) (qm qs : ℚ), ':' ∉ m → ':' ∉ s →
      PyStr.pyFloat? m = some qm → PyStr.pyFloat? s = some qs →
      minutesValue (m ++ ':' :: s) = PyStr.round2 (qm + qs / 60) := by
    intro m s qm qs hm hs hqm hqs
    unfold minutesValue parse_minutes
    rw [if_pos ((PyStr.hasChar_iff ':' _).mpr
      (List.mem_append.mpr (Or.inr (List.mem_cons_self _ _))))]
    rw [PyStr.splitOnChar_append ':' s m hm, PyStr.splitOnChar_of_not_mem ':' s hs]
    show PyStr.round2
        (match PyStr.pyFloat? m, PyStr.pyFloat? s with
         | some mv, some sv => mv + sv / 60
         | _, _ => 0) = PyStr.round2 (qm + qs / 60)
    rw [hqm, hqs]
  have hBare : ∀ (cs : List Char) (q : ℚ), ':' ∉ cs → PyStr.pyFloat? cs = some q →
      minutesValue cs = PyStr.round2 q := by
    intro cs q hcol hq
    rcases cs with _ | ⟨c, cs'⟩
    · rw [PyStr.pyFloat?_nil] at hq
      exact absurd hq (by simp)
    · unfold minutesValue parse_minutes
      rw [if_neg (by rw [PyStr.hasChar_eq_false ':' _ hcol]; exact Bool.false_ne_true)]
      rw [if_neg (by exact Bool.false_ne_true)]
      rw [hq]
  have hBad : ∀ cs : List Char, ':' ∉ cs → PyStr.pyFloat? cs = none →
      minutesValue cs = 0 := by
    intro cs hcol hq
    rcases cs with _ | ⟨c, cs'⟩
    · unfold minutesValue parse_minutes
      rw [if_neg (by rw [PyStr.hasChar_eq_false ':' _ hcol]; exact Bool.false_ne_true)]
      rw [if_pos (show ([] : List Char).isEmpty = true from rfl)]
      exact PyStr.round2_zero
    · unfold minutesValue parse_minutes
      rw [if_neg (by rw [PyStr.hasChar_eq_false ':' _ hcol]; exact Bool.false_ne_true)]
      rw [if_neg (by exact Bool.false_ne_true)]
      rw [hq]
      exact PyStr.round2_zero
  refine ⟨hMMSS, hBare, hBad, ?_, ?_, ?_⟩
  · have h : minutesValue ['3', '4', ':', '3', '0'] =
        PyStr.round2 (((PyStr.digitsToNat ['3', '4'] : ℕ) : ℚ)
          + ((PyStr.digitsToNat ['3', '0'] : ℕ) : ℚ) / 60) :=
      hMMSS ['3', '4'] ['3', '0'] _ _ (by decide) (by decide) rfl rfl
    rw [h]
    norm_num [show PyStr.digitsToNat ['3', '4'] = 34 from rfl,
      show PyStr.digitsToNat ['3', '0'] = 30 from rfl,
      PyStr.round2, PyStr.roundHalfEven]
  · have h : minutesValue ['0', ':', '0', '0'] =
        PyStr.round2 (((PyStr.digitsToNat ['0'] : ℕ) : ℚ)
          + ((PyStr.digitsToNat ['0', '0'] : ℕ) : ℚ) / 60) :=
      hMMSS ['0'] ['0', '0'] _ _ (by decide) (by decide) rfl rfl
    rw [h]
    norm_num [show PyStr.digitsToNat ['0'] = 0 from rfl,
      show PyStr.digitsToNat ['0', '0'] = 0 from rfl,
      PyStr.round2, PyStr.roundHalfEven]
  · exact hBad ['D', 'N', 'P'] (by decide) rfl

/-- Witness for C6 at `"12:40"`: the parsed value is the rounded
`12 + 40/60`. -/
theorem minutes_parsing_witness :
    minutesValue ('1' :: '2' :: ':' :: '4' :: '0' :: []) =
      PyStr.round2 (((PyStr.digitsToNat ['1', '2'] : ℕ) : ℚ)
        + ((PyStr.digitsToNat ['4', '0'] : ℕ) : ℚ) / 60) :=
  minutes_parsing.1 ['1', '2'] ['4', '0'] _ _ (by decide) (by decide) rfl rfl

end NBAETLRel
